import Mathlib

/-!
Verification development for the Friday resource-governance core
(repository Danishprabhu04/Friday_pa).

The definitions below are a shallow embedding of the Python sources:
  app/permission.py        — risk classifier (regex whole-word matching)
  app/decision_engine.py   — cost estimation and the decision gate
  app/state_manager.py     — mode switching, wake, stress detection
  app/reflection_engine.py — safe-mode circuit breaker
  app/model_controller.py  — model lifecycle registry

Python floats (time stamps, CPU percentages, RAM megabytes) are
modelled as integers and Python ints as Int or Nat: the sources only
ever compare these quantities, every ordering fact below is insensitive
to the choice of ordered domain, and integer inputs keep every
definition kernel-executable.  The regex fragment actually used by the
sources (word boundaries, literal words, alternation of literal words,
a dot-star gap, one-or-more whitespace, a small character class) is
modelled by a tiny executable engine over lists of characters, with the
ASCII semantics of word characters and case folding; the sources only
use ASCII patterns.
-/

namespace Re

/-- ASCII lower-case letter test, as used by the ASCII fragment of the
Python regex semantics. -/
def isLowerAlpha (c : Char) : Bool := 97 ≤ c.toNat && c.toNat ≤ 122

/-- ASCII upper-case letter test. -/
def isUpperAlpha (c : Char) : Bool := 65 ≤ c.toNat && c.toNat ≤ 90

/-- ASCII digit test. -/
def isDigitCh (c : Char) : Bool := 48 ≤ c.toNat && c.toNat ≤ 57

/-- ASCII word character, the class that backslash-b boundaries test. -/
def isWordChar (c : Char) : Bool :=
  isUpperAlpha c || isLowerAlpha c || isDigitCh c || c == '_'

/-- ASCII lower-casing, modelling IGNORECASE matching of ASCII patterns. -/
def lowerChar (c : Char) : Char :=
  if isUpperAlpha c then Char.ofNat (c.toNat + 32) else c

/-- Case-insensitive character equality. -/
def lcEq (a b : Char) : Bool := lowerChar a == lowerChar b

/-- Whitespace, for the backslash-s class (ASCII part). -/
def isSpaceChar (c : Char) : Bool :=
  c == ' ' || c == '\t' || c == '\n' || c == '\r' || c == '\x0b' || c == '\x0c'

/-- One atom of the regex fragment used by the repository:
literal word, alternation of literal words, word boundary, a
dot-star gap (any characters except newline), one-or-more whitespace,
and a single-character class. -/
inductive Atom where
  | lit (s : List Char)
  | alts (ss : List (List Char))
  | wb
  | dotstar
  | spaceplus
  | cls (cs : List Char)

/-- Case-insensitively strip a literal from the front of the input,
returning the rest on success. -/
def stripCI : List Char → List Char → Option (List Char)
  | [], rest => some rest
  | _ :: _, [] => none
  | k :: ks, c :: cs => if lcEq c k then stripCI ks cs else none

/-- Case-insensitive equality of two character lists. -/
def ciListEq : List Char → List Char → Bool
  | [], [] => true
  | a :: as, b :: bs => lcEq a b && ciListEq as bs
  | _, _ => false

/-- Whether the character left of the current position is a word character
(false at the start of the input). -/
def prevWord : Option Char → Bool
  | none => false
  | some c => isWordChar c

/-- Whether the character at the current position is a word character
(false at the end of the input). -/
def headWord : List Char → Bool
  | [] => false
  | c :: _ => isWordChar c

/-- Word-boundary test between the previous character and the rest. -/
def isBoundary (prev : Option Char) (rest : List Char) : Bool :=
  prevWord prev != headWord rest

/-- The previous-character state after consuming a chunk of input. -/
def newPrev (prev : Option Char) (consumed : List Char) : Option Char :=
  match consumed.getLast? with
  | some c => some c
  | none => prev

/-- All numbers of characters an atom can consume at this position. -/
def atomLens : Atom → Option Char → List Char → List Nat
  | .lit s, _, rest => if (stripCI s rest).isSome then [s.length] else []
  | .alts ss, _, rest =>
      (ss.filter (fun s => (stripCI s rest).isSome)).map List.length
  | .wb, prev, rest => if isBoundary prev rest then [0] else []
  | .dotstar, _, rest => List.range ((rest.takeWhile (fun c => !(c == '\n'))).length + 1)
  | .spaceplus, _, rest =>
      (List.range ((rest.takeWhile isSpaceChar).length + 1)).filter (fun k => 0 < k)
  | .cls cs, _, rest =>
      match rest with
      | [] => []
      | c :: _ => if cs.any (lcEq c) then [1] else []

/-- Match a sequence of atoms at the current position. -/
def matchAtoms : List Atom → Option Char → List Char → Bool
  | [], _, _ => true
  | a :: as, prev, rest =>
      (atomLens a prev rest).any fun k =>
        matchAtoms as (newPrev prev (rest.take k)) (rest.drop k)

/-- Search: try to match the atom sequence at every position. -/
def searchFrom (p : List Atom) : Option Char → List Char → Bool
  | prev, [] => matchAtoms p prev []
  | prev, c :: rest => matchAtoms p prev (c :: rest) || searchFrom p (some c) rest

/-- re.search on a string: does the pattern match anywhere? -/
def reSearch (p : List Atom) (s : String) : Bool := searchFrom p none s.data

end Re

namespace Permission

open Re

/-- DANGEROUS_KEYWORDS from app/permission.py lines 19-24 (a Python set;
order is irrelevant to search success). -/
def DANGEROUS_KEYWORDS : List String :=
  ["rm", "sudo", "apt", "systemctl", "chmod", "chown",
   "mkfs", "dd", "kill", "killall", "reboot", "shutdown",
   "fdisk", "parted", "mount", "umount", "iptables",
   "userdel", "useradd", "passwd", "crontab"]

/-- MODERATE_KEYWORDS from app/permission.py lines 26-29. -/
def MODERATE_KEYWORDS : List String :=
  ["mv", "cp", "pip", "npm", "wget", "curl", "docker",
   "git", "snap", "flatpak", "dpkg"]

/-- The compiled dangerous pattern: word boundary, alternation of the
keywords, word boundary (app/permission.py lines 32-35). -/
def dangerousPat : List Atom :=
  [Atom.wb, Atom.alts (DANGEROUS_KEYWORDS.map String.data), Atom.wb]

/-- The compiled moderate pattern (app/permission.py lines 36-39). -/
def moderatePat : List Atom :=
  [Atom.wb, Atom.alts (MODERATE_KEYWORDS.map String.data), Atom.wb]

/-- classify_command from app/permission.py lines 42-58: dangerous if the
dangerous pattern matches, else moderate if the moderate pattern matches,
else safe. -/
def classify_command (command : String) : String :=
  if reSearch dangerousPat command then "dangerous"
  else if reSearch moderatePat command then "moderate"
  else "safe"

end Permission

/-- Settings from app/config_loader.py, restricted to the fields the
decision gate and stress detection read, with the defaults of the source. -/
structure Settings where
  cpu_threshold : Int := 85
  gpu_threshold : Int := 90
  ask_permission_for_moderate : Bool := true
  stress_cpu_duration_seconds : Int := 300
  safe_mode_max_cost : String := "low"

namespace DecisionEngine

open Re

/-- The compiled cost rule table _COST_PATTERNS from
app/decision_engine.py lines 25-50: each Python regex, in source order,
with its cost class.  High-cost rules come before medium-cost rules and
the first match wins. -/
def _COST_PATTERNS : List (List Atom × String) :=
  [ ([Atom.wb, Atom.lit "train".data, Atom.wb], "high"),
    ([Atom.wb, Atom.lit "compil".data, Atom.alts ["e".data, "ing".data], Atom.wb], "high"),
    ([Atom.wb, Atom.lit "build".data, Atom.wb, Atom.dotstar,
      Atom.wb, Atom.lit "docker".data, Atom.wb], "high"),
    ([Atom.wb, Atom.lit "docker".data, Atom.spaceplus, Atom.lit "build".data, Atom.wb], "high"),
    ([Atom.wb, Atom.lit "make".data, Atom.wb, Atom.dotstar,
      Atom.wb, Atom.lit "all".data, Atom.wb], "high"),
    ([Atom.wb, Atom.lit "heavy".data, Atom.wb], "high"),
    ([Atom.wb, Atom.lit "model".data, Atom.wb, Atom.dotstar,
      Atom.wb, Atom.alts ["run".data, "load".data, "train".data], Atom.wb], "high"),
    ([Atom.wb, Atom.lit "ffmpeg".data, Atom.wb], "high"),
    ([Atom.wb, Atom.lit "blender".data, Atom.wb], "high"),
    ([Atom.wb, Atom.lit "cuda".data, Atom.wb], "high"),
    ([Atom.wb, Atom.lit "pip".data, Atom.spaceplus, Atom.lit "install".data, Atom.wb], "medium"),
    ([Atom.wb, Atom.lit "npm".data, Atom.spaceplus, Atom.lit "install".data, Atom.wb], "medium"),
    ([Atom.wb, Atom.lit "git".data, Atom.spaceplus,
      Atom.alts ["clone".data, "pull".data], Atom.wb], "medium"),
    ([Atom.wb, Atom.lit "wget".data, Atom.wb], "medium"),
    ([Atom.wb, Atom.lit "curl".data, Atom.wb, Atom.dotstar,
      Atom.wb, Atom.lit "-".data, Atom.cls ['o', 'O'], Atom.wb], "medium"),
    ([Atom.wb, Atom.lit "docker".data, Atom.wb], "medium"),
    ([Atom.wb, Atom.lit "tar".data, Atom.wb], "medium"),
    ([Atom.wb, Atom.lit "zip".data, Atom.wb], "medium"),
    ([Atom.wb, Atom.lit "unzip".data, Atom.wb], "medium"),
    ([Atom.wb, Atom.lit "cp".data, Atom.spaceplus, Atom.lit "-r".data, Atom.wb], "medium") ]

/-- _COST_LEVELS.get with default 0, from app/decision_engine.py line 53. -/
def _COST_LEVELS (s : String) : Nat :=
  if s = "low" then 0 else if s = "medium" then 1 else if s = "high" then 2 else 0

/-- estimate_cost from app/decision_engine.py lines 56-62: scan the
combined instruction-space-command text; first matching rule gives the
cost, default low. -/
def estimate_cost (instruction command : String) : String :=
  match _COST_PATTERNS.find? (fun pc => reSearch pc.1 (instruction ++ " " ++ command)) with
  | some pc => pc.2
  | none => "low"

/-- Decision dataclass from app/decision_engine.py lines 67-74. -/
structure Decision where
  action : String
  reason : String
  estimated_cost : String
  suggested_mode : Option String := none
deriving DecidableEq

/-- decide from app/decision_engine.py lines 77-186.  The global
is_safe_mode() read is passed in as the safe_mode argument. -/
def decide (instruction command risk_level : String) (is_stressed safe_mode : Bool)
    (settings : Settings) : Decision :=
  let cost := estimate_cost instruction command
  if risk_level = "dangerous" then
    { action := "reject",
      reason := "Command classified as dangerous — always blocked.",
      estimated_cost := cost }
  else if safe_mode ∧ _COST_LEVELS cost > _COST_LEVELS settings.safe_mode_max_cost then
    { action := "reject",
      reason := "Safe mode is active. Only \x27" ++ settings.safe_mode_max_cost ++
        "\x27 cost tasks allowed, but this task is \x27" ++ cost ++ "\x27.",
      estimated_cost := cost }
  else if is_stressed ∧ risk_level = "moderate" then
    { action := "ask_permission",
      reason := "System is under stress and command is moderate-risk. Permission required.",
      estimated_cost := cost }
  else if cost = "high" ∧ is_stressed then
    { action := "switch_mode",
      reason := "System is under stress and this is a high-cost task. " ++
        "Recommend switching to idle or unloading current tasks before proceeding.",
      estimated_cost := cost,
      suggested_mode := some "idle" }
  else if risk_level = "moderate" ∧ settings.ask_permission_for_moderate then
    { action := "ask_permission",
      reason := "Command is moderate-risk. Permission required per configuration.",
      estimated_cost := cost }
  else if is_stressed then
    { action := "execute",
      reason := "System is under stress, but this is a low-impact task. " ++
        "Proceeding with caution.",
      estimated_cost := cost }
  else
    { action := "execute",
      reason := "Task is safe and system resources are adequate.",
      estimated_cost := cost }

end DecisionEngine

namespace StateManager

/-- VALID_MODES from app/state_manager.py line 20 (a Python set, modelled
as a list). -/
def VALID_MODES : List String := ["idle", "monitor", "coding", "voice", "heavy"]

/-- HEAVY_MODES from app/state_manager.py line 21. -/
def HEAVY_MODES : List String := ["voice", "heavy"]

/-- The fields of the SystemState dataclass (app/state_manager.py
lines 24-50) that mode switching, wake and stress detection touch.
Resource readings and time stamps are rationals standing for Python
floats. -/
structure SystemState where
  mode : String := "idle"
  monitoring_frequency : String := "normal"
  previous_mode : String := "idle"
  last_activity : Int := 0
deriving DecidableEq

/-- Result of switch_mode: the error dict or the ok dict with previous
and current mode (app/state_manager.py lines 82 and 104).  The source
also renders the valid-mode set into the error reason; only the invalid
mode itself is carried here. -/
inductive SwitchResult where
  | error (reason : String)
  | ok (previous_mode current_mode : String)
deriving DecidableEq

/-- switch_mode from app/state_manager.py lines 75-104.  self.touch() is
modelled by the explicit now argument.  The heavy-mode check at lines
87-88 only logs and changes no state, so it contributes nothing here. -/
def switch_mode (s : SystemState) (new_mode : String) (now : Int) :
    SwitchResult × SystemState :=
  if new_mode ∉ VALID_MODES then
    (SwitchResult.error ("Invalid mode: " ++ new_mode), s)
  else
    let old := s.mode
    let s1 := if new_mode = "idle" ∧ old ≠ "idle" then { s with previous_mode := old } else s
    let s2 := { s1 with mode := new_mode, last_activity := now }
    let s3 :=
      if new_mode = "idle" then { s2 with monitoring_frequency := "reduced" }
      else if s2.monitoring_frequency = "reduced" then { s2 with monitoring_frequency := "normal" }
      else s2
    (SwitchResult.ok old new_mode, s3)

/-- Result of wake: either the dict returned by switch_mode, or the
already-active dict (app/state_manager.py line 111). -/
inductive WakeResult where
  | from_switch (r : SwitchResult)
  | already_active (mode : String)
deriving DecidableEq

/-- wake from app/state_manager.py lines 106-111. -/
def wake (s : SystemState) (now : Int) : WakeResult × SystemState :=
  if s.mode = "idle" ∧ s.previous_mode ≠ "idle" then
    let r := switch_mode s s.previous_mode now
    (WakeResult.from_switch r.1, r.2)
  else (WakeResult.already_active s.mode, s)

/-- One observation fed to is_system_stressed: the current time and the
readings that refresh() stored (app/state_manager.py lines 54-71). -/
structure StressInput where
  now : Int
  cpu_percent : Int
  ram_available_mb : Int
  gpu_utilization : Option Int
deriving DecidableEq

/-- The three stress reasons the source logs at lines 162-168.  The
source interpolates the numeric readings into the strings; only the
cited subsystem matters here. -/
inductive StressReason where
  | cpu
  | ram
  | gpu
deriving DecidableEq

/-- Everything one call of is_system_stressed computes: the three branch
flags, the overall flag, the logged reasons, and the updated
_cpu_high_since field. -/
structure StressResult where
  cpu_stressed : Bool
  ram_stressed : Bool
  gpu_stressed : Bool
  stressed : Bool
  reasons : List StressReason
  cpu_high_since : Option Int
deriving DecidableEq

/-- is_system_stressed from app/state_manager.py lines 134-171.  The
mutable _cpu_high_since field is passed in and returned; time.time() is
the now field of the input. -/
def is_system_stressed (settings : Settings) (cpu_high_since : Option Int)
    (inp : StressInput) : StressResult :=
  let cpuPair : Bool × Option Int :=
    if inp.cpu_percent > settings.cpu_threshold then
      match cpu_high_since with
      | none => (false, some inp.now)
      | some t0 =>
          (decide (inp.now - t0 ≥ settings.stress_cpu_duration_seconds), some t0)
    else (false, none)
  let cpu_stressed := cpuPair.1
  let ram_stressed := decide (inp.ram_available_mb < 500)
  let gpu_stressed :=
    match inp.gpu_utilization with
    | none => false
    | some g => decide (g > settings.gpu_threshold)
  let stressed := cpu_stressed || ram_stressed || gpu_stressed
  let reasons :=
    if stressed then
      (if cpu_stressed then [StressReason.cpu] else []) ++
      (if ram_stressed then [StressReason.ram] else []) ++
      (if gpu_stressed then [StressReason.gpu] else [])
    else []
  ⟨cpu_stressed, ram_stressed, gpu_stressed, stressed, reasons, cpuPair.2⟩

/-- The _cpu_high_since state after a sequence of is_system_stressed
calls. -/
def stressStateAfter (settings : Settings) : Option Int → List StressInput → Option Int
  | st, [] => st
  | st, i :: is => stressStateAfter settings (is_system_stressed settings st i).cpu_high_since is

end StateManager

namespace ReflectionEngine

/-- should_enter_safe_mode from app/reflection_engine.py lines 77-100.
The failure count queried from the database is passed in; the global
_safe_mode flag is passed in and the updated flag returned alongside the
boolean result: (returned value, new _safe_mode). -/
def should_enter_safe_mode (count : Nat) (threshold : Int) (safe_mode : Bool) :
    Bool × Bool :=
  if (count : Int) ≥ threshold ∧ safe_mode = false then (true, true)
  else (false, safe_mode)

/-- set_safe_mode from app/reflection_engine.py lines 24-33: the manual
override simply stores the requested value; the new _safe_mode flag is
returned. -/
def set_safe_mode (enabled : Bool) (_safe_mode : Bool) : Bool := enabled

/-- Folding should_enter_safe_mode over a sequence of failure counts:
returns the final _safe_mode flag and the list of returned values. -/
def run_should_trip (threshold : Int) : Bool → List Nat → Bool × List Bool
  | sm, [] => (sm, [])
  | sm, c :: cs =>
      let r := should_enter_safe_mode c threshold sm
      let rest := run_should_trip threshold r.2 cs
      (rest.1, r.1 :: rest.2)

end ReflectionEngine

namespace ModelController

/-- ModelRecord from app/model_controller.py lines 16-21. -/
structure ModelRecord where
  name : String
  loaded_at : Int
  last_used : Int
deriving DecidableEq

/-- unload_model from app/model_controller.py lines 43-50, acting on the
_models dict (modelled as an insertion-ordered list, names unique):
returns the status string and the remaining records. -/
def unload_model (ms : List ModelRecord) (name : String) : String × List ModelRecord :=
  if ms.any (fun r => r.name == name) then
    ("unloaded", ms.filter (fun r => !(r.name == name)))
  else ("not_loaded", ms)

/-- auto_unload_check from app/model_controller.py lines 59-73: collect
the names whose idle time reaches the cutoff, unload each, and return
the stale names together with the remaining records. -/
def auto_unload_check (ms : List ModelRecord) (timeout_minutes : Int) (now : Int) :
    List String × List ModelRecord :=
  let cutoff := timeout_minutes * 60
  let stale := (ms.filter (fun r => decide (now - r.last_used ≥ cutoff))).map ModelRecord.name
  (stale, stale.foldl (fun acc n => (unload_model acc n).2) ms)

/-- get_active_models from app/model_controller.py lines 77-87: name plus
derived ages.  The source rounds the displayed ages to one decimal; the
exact ages are kept here. -/
def get_active_models (ms : List ModelRecord) (now : Int) : List (String × Int × Int) :=
  ms.map (fun r => (r.name, now - r.loaded_at, now - r.last_used))

end ModelController

/-- Specification-side predicate for the risk classifier: the keyword
occurs in the string as a whole word, i.e. as a case-insensitively equal
segment whose neighbouring characters (when they exist) are not word
characters. -/
def occursAsWholeWord (kw : String) (s : String) : Prop :=
  ∃ pre mid post : List Char,
    s.data = pre ++ mid ++ post ∧
    Re.ciListEq mid kw.data = true ∧
    (∀ c, pre.getLast? = some c → Re.isWordChar c = false) ∧
    (∀ c, post.head? = some c → Re.isWordChar c = false)


namespace StateManager

/-- When the new mode is valid, the state after switch_mode carries the
new mode. -/
theorem switch_mode_sets_mode (s : SystemState) (new_mode : String) (now : Int)
    (h : new_mode ∈ VALID_MODES) : ((switch_mode s new_mode now).2).mode = new_mode := by
  unfold switch_mode
  rw [if_neg (by simpa using h)]
  dsimp only
  split_ifs <;> rfl

/-- When the new mode is valid, switch_mode reports the previous and the
new mode. -/
theorem switch_mode_fst (s : SystemState) (new_mode : String) (now : Int)
    (h : new_mode ∈ VALID_MODES) :
    (switch_mode s new_mode now).1 = SwitchResult.ok s.mode new_mode := by
  unfold switch_mode
  rw [if_neg (by simpa using h)]

/-- When the new mode is invalid, switch_mode leaves the state untouched. -/
theorem switch_mode_invalid_state (s : SystemState) (new_mode : String) (now : Int)
    (h : new_mode ∉ VALID_MODES) : (switch_mode s new_mode now).2 = s := by
  unfold switch_mode
  rw [if_pos h]

/-- wake when the state is not idle, or no non-idle mode is remembered:
a no-op reporting already_active. -/
theorem wake_no (s : SystemState) (now : Int)
    (h : ¬(s.mode = "idle" ∧ s.previous_mode ≠ "idle")) :
    wake s now = (WakeResult.already_active s.mode, s) := by
  unfold wake
  rw [if_neg h]

/-- wake when idle with a remembered non-idle mode: delegates to
switch_mode. -/
theorem wake_yes (s : SystemState) (now : Int)
    (h : s.mode = "idle" ∧ s.previous_mode ≠ "idle") :
    wake s now = (WakeResult.from_switch (switch_mode s s.previous_mode now).1,
      (switch_mode s s.previous_mode now).2) := by
  unfold wake
  rw [if_pos h]

/-- A step of is_system_stressed with high CPU keeps an established
streak start. -/
theorem stress_high_keeps (settings : Settings) (t0 : Int) (i : StressInput)
    (h : i.cpu_percent > settings.cpu_threshold) :
    (is_system_stressed settings (some t0) i).cpu_high_since = some t0 := by
  simp [is_system_stressed, h]

/-- A first step of is_system_stressed with high CPU starts the streak at
the current time. -/
theorem stress_first_high (settings : Settings) (i : StressInput)
    (h : i.cpu_percent > settings.cpu_threshold) :
    (is_system_stressed settings none i).cpu_high_since = some i.now := by
  simp [is_system_stressed, h]

/-- Over a run of all-high observations, an established streak start is
preserved. -/
theorem stressStateAfter_high (settings : Settings) (l : List StressInput) (t0 : Int)
    (h : ∀ y ∈ l, y.cpu_percent > settings.cpu_threshold) :
    stressStateAfter settings (some t0) l = some t0 := by
  induction l with
  | nil => rfl
  | cons y ys ih =>
      rw [stressStateAfter, stress_high_keeps settings t0 y (h y (List.mem_cons_self y ys))]
      exact ih (fun z hz => h z (List.mem_cons_of_mem _ hz))

end StateManager

namespace ModelController

/-- Unloading a name different from the head record keeps the head. -/
theorem unload_cons_ne (r : ModelRecord) (rs : List ModelRecord) (n : String)
    (h : r.name ≠ n) :
    (unload_model (r :: rs) n).2 = r :: (unload_model rs n).2 := by
  have hb : (r.name == n) = false := by simpa using h
  by_cases ha : rs.any (fun x => x.name == n)
  · simp [unload_model, List.any_cons, List.filter_cons, ha, hb]
  · simp [unload_model, List.any_cons, List.filter_cons, ha, hb]

/-- Unloading a batch of names none of which is the head keeps the head. -/
theorem foldl_unload_not_mem :
    ∀ (ns : List String) (r : ModelRecord) (rs : List ModelRecord), r.name ∉ ns →
    ns.foldl (fun acc n => (unload_model acc n).2) (r :: rs) =
      r :: ns.foldl (fun acc n => (unload_model acc n).2) rs := by
  intro ns
  induction ns with
  | nil => intro r rs _; rfl
  | cons n ns ih =>
      intro r rs h
      have h1 : r.name ≠ n := fun hc => h (hc ▸ List.mem_cons_self n ns)
      have h2 : r.name ∉ ns := fun hc => h (List.mem_cons_of_mem _ hc)
      rw [List.foldl_cons, List.foldl_cons, unload_cons_ne r rs n h1]
      exact ih r _ h2

/-- Unloading exactly the stale names (as auto_unload_check does) is the
same as filtering out the stale records, provided names are unique — the
invariant of the _models dict. -/
theorem foldl_unload_filter (timeout now : Int) :
    ∀ ms : List ModelRecord, ((ms.map ModelRecord.name).Nodup) →
    (((ms.filter (fun r => decide (now - r.last_used ≥ timeout * 60))).map
        ModelRecord.name).foldl (fun acc n => (unload_model acc n).2) ms) =
      ms.filter (fun r => !(decide (now - r.last_used ≥ timeout * 60))) := by
  intro ms
  induction ms with
  | nil => intro _; rfl
  | cons r rs ih =>
      intro h
      have hname : r.name ∉ rs.map ModelRecord.name := (List.nodup_cons.mp h).1
      have hnd : (rs.map ModelRecord.name).Nodup := (List.nodup_cons.mp h).2
      have hne : ∀ x ∈ rs, x.name ≠ r.name := by
        intro x hx hc
        exact hname (hc ▸ List.mem_map_of_mem ModelRecord.name hx)
      by_cases hp : now - r.last_used ≥ timeout * 60
      · rw [List.filter_cons_of_pos (by simpa using hp), List.map_cons, List.foldl_cons]
        have hu : (unload_model (r :: rs) r.name).2 = rs := by
          have hfix : (rs.filter (fun x => !(x.name == r.name))) = rs :=
            List.filter_eq_self.mpr (by intro a ha; simpa using hne a ha)
          simp [unload_model, List.any_cons, List.filter_cons, hfix]
        rw [hu, ih hnd, List.filter_cons_of_neg (by simpa using hp)]
      · rw [List.filter_cons_of_neg (by simpa using hp)]
        have hmem : r.name ∉ (rs.filter
            (fun x => decide (now - x.last_used ≥ timeout * 60))).map ModelRecord.name := by
          intro hc
          rcases List.mem_map.mp hc with ⟨x, hx, hxe⟩
          exact hne x (List.mem_of_mem_filter hx) hxe
        rw [foldl_unload_not_mem _ r rs hmem, ih hnd,
          List.filter_cons_of_pos (by simpa using hp)]

end ModelController

/-- C1: For every instruction, command, stress flag, safe-mode flag, and
configuration, if the risk tier is dangerous then decide returns a
Decision with action reject, regardless of cost, stress, or safe-mode
state. -/
theorem C1_dangerous_always_reject (instruction command risk_level : String)
    (is_stressed safe_mode : Bool) (settings : Settings)
    (h : risk_level = "dangerous") :
    (DecisionEngine.decide instruction command risk_level is_stressed safe_mode
      settings).action = "reject" := by
  subst h
  simp [DecisionEngine.decide]

/-- Witness for C1 at a concrete input. -/
theorem C1_witness :
    (DecisionEngine.decide "" "rm -rf /" "dangerous" false false {}).action = "reject" :=
  C1_dangerous_always_reject "" "rm -rf /" "dangerous" false false {} rfl

/-- C2: For every input whose risk tier is not dangerous, if safe mode is
active and the estimated cost strictly exceeds the configured
safe_mode_max_cost (in the low < medium < high ordering used by the
code), decide returns action reject with the reason citing safe mode. -/
theorem C2_safe_mode_reject (instruction command risk_level : String)
    (is_stressed : Bool) (settings : Settings)
    (h1 : risk_level ≠ "dangerous")
    (h2 : DecisionEngine._COST_LEVELS (DecisionEngine.estimate_cost instruction command) >
      DecisionEngine._COST_LEVELS settings.safe_mode_max_cost) :
    (DecisionEngine.decide instruction command risk_level is_stressed true
      settings).action = "reject" ∧
    (DecisionEngine.decide instruction command risk_level is_stressed true
      settings).reason =
      "Safe mode is active. Only \x27" ++ settings.safe_mode_max_cost ++
        "\x27 cost tasks allowed, but this task is \x27" ++
        DecisionEngine.estimate_cost instruction command ++ "\x27." := by
  constructor <;> simp [DecisionEngine.decide, h1, h2]

/-- Witness for C2: safe_mode_max_cost low, safe mode active, a
medium-cost command, risk tier safe. -/
theorem C2_witness :
    (DecisionEngine.decide "" "wget x" "safe" false true {}).action = "reject" :=
  (C2_safe_mode_reject "" "wget x" "safe" false {} (by decide) (by decide)).1

/-- C5: the breaker trips (returns true and sets SafeMode) exactly when
the failure count reaches the threshold while SafeMode is false; a call
on a tripped breaker returns false and keeps SafeMode; SafeMode never
self-clears across a call; over any sequence of calls on a tripped
breaker every result is false and the flag stays true; the manual
override always takes immediate effect. -/
theorem C5_breaker_monotonic (count : Nat) (threshold : Int) (sm e s : Bool)
    (counts : List Nat) :
    (ReflectionEngine.should_enter_safe_mode count threshold sm = (true, true) ↔
      ((count : Int) ≥ threshold ∧ sm = false)) ∧
    (sm = true → ReflectionEngine.should_enter_safe_mode count threshold sm = (false, true)) ∧
    ((ReflectionEngine.should_enter_safe_mode count threshold sm).2 = false → sm = false) ∧
    (ReflectionEngine.run_should_trip threshold true counts =
      (true, counts.map fun _ => false)) ∧
    ReflectionEngine.set_safe_mode e s = e := by
  refine ⟨?_, ?_, ?_, ?_, rfl⟩
  · unfold ReflectionEngine.should_enter_safe_mode
    split_ifs with h
    · simp [h]
    · simp [h]
  · intro h
    unfold ReflectionEngine.should_enter_safe_mode
    split_ifs with hc
    · simp [hc.2] at h
    · simp [h]
  · unfold ReflectionEngine.should_enter_safe_mode
    split_ifs with hc
    · intro hh; cases hh
    · intro hh; exact hh
  · induction counts with
    | nil => rfl
    | cons c cs ih =>
        simp [ReflectionEngine.run_should_trip, ReflectionEngine.should_enter_safe_mode, ih]

/-- Witness for C5 at concrete counts. -/
theorem C5_witness :
    ReflectionEngine.should_enter_safe_mode 3 3 false = (true, true) ∧
    ReflectionEngine.run_should_trip 3 true [5, 7] = (true, [5, 7].map fun _ => false) :=
  ⟨(C5_breaker_monotonic 3 3 false false false [5, 7]).1.mpr (by decide),
   (C5_breaker_monotonic 3 3 false false false [5, 7]).2.2.2.1⟩

/-- C6: the cost rule table lists all ten high-cost rules before all ten
medium-cost rules; when no rule matches the combined text the estimate is
low; the instruction about training a model estimates high; and when
additionally stressed, with risk neither dangerous nor moderate and safe
mode off, decide returns switch_mode with suggested mode idle. -/
theorem C6_cost_table (risk_level : String) (settings : Settings)
    (h1 : risk_level ≠ "dangerous") (h2 : risk_level ≠ "moderate") :
    (DecisionEngine._COST_PATTERNS.map Prod.snd =
      List.replicate 10 "high" ++ List.replicate 10 "medium") ∧
    (∀ instruction command : String,
      (∀ pc ∈ DecisionEngine._COST_PATTERNS,
        Re.reSearch pc.1 (instruction ++ " " ++ command) = false) →
      DecisionEngine.estimate_cost instruction command = "low") ∧
    DecisionEngine.estimate_cost "train a model on the dataset" "" = "high" ∧
    (DecisionEngine.decide "train a model on the dataset" "" risk_level true false
      settings).action = "switch_mode" ∧
    (DecisionEngine.decide "train a model on the dataset" "" risk_level true false
      settings).suggested_mode = some "idle" := by
  have hcost : DecisionEngine.estimate_cost "train a model on the dataset" "" = "high" := by
    decide
  refine ⟨by decide, ?_, hcost, ?_, ?_⟩
  · intro instruction command h
    unfold DecisionEngine.estimate_cost
    rw [List.find?_eq_none.mpr]
    intro pc hpc
    simp [h pc hpc]
  · simp [DecisionEngine.decide, h1, h2, hcost]
  · simp [DecisionEngine.decide, h1, h2, hcost]

/-- Witness for C6 with risk tier safe and default settings. -/
theorem C6_witness :
    (DecisionEngine.decide "train a model on the dataset" "" "safe" true false
      {}).action = "switch_mode" :=
  (C6_cost_table "safe" {} (by decide) (by decide)).2.2.2.1

/-- C7: switch_mode with an invalid mode fails with the invalid-mode
error and mutates nothing; with a valid mode it returns the previous and
current modes; entering idle from a non-idle mode remembers the outgoing
mode; entering idle sets the monitoring cadence to reduced; switching to
a valid non-idle mode while the cadence is reduced restores normal. -/
theorem C7_switch_mode (s : StateManager.SystemState) (new_mode : String) (now : Int) :
    (new_mode ∉ StateManager.VALID_MODES →
      StateManager.switch_mode s new_mode now =
        (StateManager.SwitchResult.error ("Invalid mode: " ++ new_mode), s)) ∧
    (new_mode ∈ StateManager.VALID_MODES →
      (StateManager.switch_mode s new_mode now).1 =
        StateManager.SwitchResult.ok s.mode new_mode) ∧
    (s.mode ≠ "idle" →
      (StateManager.switch_mode s "idle" now).2.previous_mode = s.mode) ∧
    ((StateManager.switch_mode s "idle" now).2.monitoring_frequency = "reduced") ∧
    (new_mode ∈ StateManager.VALID_MODES → new_mode ≠ "idle" →
      s.monitoring_frequency = "reduced" →
      (StateManager.switch_mode s new_mode now).2.monitoring_frequency = "normal") := by
  refine ⟨?_, ?_, ?_, ?_, ?_⟩
  · intro h
    unfold StateManager.switch_mode
    rw [if_pos h]
  · intro h
    unfold StateManager.switch_mode
    rw [if_neg (by simpa using h)]
  · intro h
    have hv : ("idle" : String) ∈ StateManager.VALID_MODES := by decide
    unfold StateManager.switch_mode
    rw [if_neg (by simpa using hv)]
    simp [h]
  · have hv : ("idle" : String) ∈ StateManager.VALID_MODES := by decide
    unfold StateManager.switch_mode
    rw [if_neg (by simpa using hv)]
    simp
  · intro h h2 h3
    unfold StateManager.switch_mode
    rw [if_neg (by simpa using h)]
    simp [h2, h3]

/-- Witness for C7: an unknown mode is rejected without mutation, and a
valid transition reports previous and current modes. -/
theorem C7_witness :
    StateManager.switch_mode {} "bogus" 5 =
      (StateManager.SwitchResult.error ("Invalid mode: " ++ "bogus"),
        ({} : StateManager.SystemState)) ∧
    (StateManager.switch_mode {} "coding" 5).1 =
      StateManager.SwitchResult.ok "idle" "coding" :=
  ⟨(C7_switch_mode {} "bogus" 5).1 (by decide),
   (C7_switch_mode {} "coding" 5).2.1 (by decide)⟩

/-- C8: wake on a non-idle state is a no-op reporting already_active;
wake on an idle state with a remembered (valid) non-idle prior mode
switches back to that mode; and wake is idempotent on the state from any
starting state. -/
theorem C8_wake (s : StateManager.SystemState) (now now2 : Int) :
    (s.mode ≠ "idle" →
      StateManager.wake s now = (StateManager.WakeResult.already_active s.mode, s)) ∧
    (s.mode = "idle" → s.previous_mode ≠ "idle" →
      s.previous_mode ∈ StateManager.VALID_MODES →
      (StateManager.wake s now).1 =
        StateManager.WakeResult.from_switch
          (StateManager.SwitchResult.ok "idle" s.previous_mode) ∧
      (StateManager.wake s now).2.mode = s.previous_mode) ∧
    (StateManager.wake (StateManager.wake s now).2 now2).2 = (StateManager.wake s now).2 := by
  refine ⟨?_, ?_, ?_⟩
  · intro h
    exact StateManager.wake_no s now (fun hc => h hc.1)
  · intro h1 h2 h3
    rw [StateManager.wake_yes s now ⟨h1, h2⟩]
    exact ⟨by rw [StateManager.switch_mode_fst s s.previous_mode now h3, h1],
      StateManager.switch_mode_sets_mode s s.previous_mode now h3⟩
  · by_cases hcond : s.mode = "idle" ∧ s.previous_mode ≠ "idle"
    · by_cases hv : s.previous_mode ∈ StateManager.VALID_MODES
      · have hst : (StateManager.wake s now).2 =
            (StateManager.switch_mode s s.previous_mode now).2 := by
          rw [StateManager.wake_yes s now hcond]
        have hm : (StateManager.switch_mode s s.previous_mode now).2.mode =
            s.previous_mode :=
          StateManager.switch_mode_sets_mode s s.previous_mode now hv
        rw [hst, StateManager.wake_no _ now2 (fun hc => hcond.2 (hm ▸ hc.1))]
      · have hww : ∀ t : Int, (StateManager.wake s t).2 = s := fun t => by
          rw [StateManager.wake_yes s t hcond]
          exact StateManager.switch_mode_invalid_state s s.previous_mode t hv
        rw [hww now, hww now2]
    · have hww : ∀ t : Int, (StateManager.wake s t).2 = s := fun t => by
        rw [StateManager.wake_no s t hcond]
      rw [hww now, hww now2]

/-- Witness for C8: waking an idle state that remembers mode coding. -/
theorem C8_witness :
    (StateManager.wake ⟨"idle", "reduced", "coding", 0⟩ 1).1 =
      StateManager.WakeResult.from_switch (StateManager.SwitchResult.ok "idle" "coding") ∧
    (StateManager.wake ⟨"idle", "reduced", "coding", 0⟩ 1).2.mode = "coding" :=
  (C8_wake ⟨"idle", "reduced", "coding", 0⟩ 1 2).2.1 rfl (by decide) (by decide)

/-- C9: auto_unload_check removes exactly the records whose idle duration
reaches the timeout (the rest remain, in order), returns exactly the
stale names, and a stale name never appears in a subsequent
get_active_models listing — all under the unique-name invariant of the
_models dict. -/
theorem C9_evict_idle (ms : List ModelController.ModelRecord) (timeout now : Int)
    (h : (ms.map ModelController.ModelRecord.name).Nodup) :
    ((ModelController.auto_unload_check ms timeout now).2 =
      ms.filter (fun r => decide (now - r.last_used < timeout * 60))) ∧
    (∀ r ∈ ms, now - r.last_used ≥ timeout * 60 →
      r.name ∈ (ModelController.auto_unload_check ms timeout now).1) ∧
    (∀ n ∈ (ModelController.auto_unload_check ms timeout now).1,
      ∃ r, r ∈ ms ∧ r.name = n ∧ now - r.last_used ≥ timeout * 60) ∧
    (∀ n ∈ (ModelController.auto_unload_check ms timeout now).1,
      ∀ p ∈ ModelController.get_active_models
        (ModelController.auto_unload_check ms timeout now).2 now, p.1 ≠ n) := by
  have hpt : ∀ r : ModelController.ModelRecord,
      (decide (now - r.last_used < timeout * 60)) =
        (!(decide (now - r.last_used ≥ timeout * 60))) := by
    intro r
    by_cases hr : now - r.last_used ≥ timeout * 60
    · simp [hr, not_lt.mpr hr]
    · simp [hr, lt_of_not_ge hr]
  have hsnd : (ModelController.auto_unload_check ms timeout now).2 =
      ms.filter (fun r => decide (now - r.last_used < timeout * 60)) := by
    rw [List.filter_congr (fun r _ => hpt r)]
    exact ModelController.foldl_unload_filter timeout now ms h
  have hfst : (ModelController.auto_unload_check ms timeout now).1 =
      (ms.filter (fun r => decide (now - r.last_used ≥ timeout * 60))).map
        ModelController.ModelRecord.name := rfl
  refine ⟨hsnd, ?_, ?_, ?_⟩
  · intro r hr hstale
    rw [hfst]
    exact List.mem_map_of_mem _ (List.mem_filter.mpr ⟨hr, by simpa using hstale⟩)
  · intro n hn
    rw [hfst] at hn
    rcases List.mem_map.mp hn with ⟨r, hr, hrn⟩
    exact ⟨r, List.mem_of_mem_filter hr, hrn, by
      simpa using (List.mem_filter.mp hr).2⟩
  · intro n hn p hp hpn
    rw [hfst] at hn
    rcases List.mem_map.mp hn with ⟨r, hr, hrn⟩
    have hge : now - r.last_used ≥ timeout * 60 := by
      simpa using (List.mem_filter.mp hr).2
    rw [hsnd] at hp
    rcases List.mem_map.mp hp with ⟨r2, hr2, hp2⟩
    have hlt : now - r2.last_used < timeout * 60 := by
      simpa using (List.mem_filter.mp hr2).2
    have hname : r2.name = r.name := by
      have hpr : p.1 = r2.name := by rw [← hp2]
      rw [← hpr, hpn, hrn]
    have : r2 = r :=
      List.inj_on_of_nodup_map h (List.mem_of_mem_filter hr2)
        (List.mem_of_mem_filter hr) hname
    rw [this] at hlt
    exact absurd hge (not_le.mpr hlt)

/-- Witness for C9: a model loaded 20 minutes ago and last used 11
minutes ago is evicted by a 10-minute timeout and disappears from the
active listing. -/
theorem C9_witness :
    ("m" ∈ (ModelController.auto_unload_check [⟨"m", 0, 540⟩] 10 1200).1) ∧
    (ModelController.auto_unload_check [⟨"m", 0, 540⟩] 10 1200).2 =
      List.filter (fun r => decide (1200 - r.last_used < 10 * 60)) [⟨"m", 0, 540⟩] :=
  ⟨(C9_evict_idle [⟨"m", 0, 540⟩] 10 1200 (by decide)).2.1 ⟨"m", 0, 540⟩
      (List.mem_cons_self _ _) (by decide),
   (C9_evict_idle [⟨"m", 0, 540⟩] 10 1200 (by decide)).1⟩

/-- C10: decide always returns one of execute, ask_permission, reject,
switch_mode — never the documented delay action — and suggested_mode is
set only when the action is switch_mode. -/
theorem C10_action_space (instruction command risk_level : String)
    (is_stressed safe_mode : Bool) (settings : Settings) :
    ((DecisionEngine.decide instruction command risk_level is_stressed safe_mode
        settings).action ∈ ["execute", "ask_permission", "reject", "switch_mode"]) ∧
    ((DecisionEngine.decide instruction command risk_level is_stressed safe_mode
        settings).action ≠ "delay") ∧
    ((DecisionEngine.decide instruction command risk_level is_stressed safe_mode
        settings).suggested_mode ≠ none →
      (DecisionEngine.decide instruction command risk_level is_stressed safe_mode
        settings).action = "switch_mode") := by
  unfold DecisionEngine.decide
  refine ⟨?_, ?_, ?_⟩ <;> · dsimp only; split_ifs <;> simp

/-- Witness for C10: a concrete input whose suggested_mode is set. -/
theorem C10_witness :
    (DecisionEngine.decide "train" "" "safe" true false {}).action = "switch_mode" :=
  (C10_action_space "train" "" "safe" true false {}).2.2 (by decide)

/-- C3: over any sequence of observations, the CPU branch of
is_system_stressed reports false on the very first observation, and on a
later observation whenever the time elapsed since the first observation
of an uninterrupted high-CPU run is strictly below
stress_cpu_duration_seconds; once the elapsed time reaches the duration
(CPU still high) the call reports stress with a CPU reason.  The
RAM-floor and GPU-threshold branches assert immediately, from any
debounce state. -/
theorem C3_stress_debounce (settings : Settings) (st : Option Int)
    (first x : StateManager.StressInput) (l : List StateManager.StressInput) (g : Int) :
    ((StateManager.is_system_stressed settings none x).cpu_stressed = false) ∧
    ((∀ y ∈ first :: l, y.cpu_percent > settings.cpu_threshold) →
      x.now - first.now < settings.stress_cpu_duration_seconds →
      (StateManager.is_system_stressed settings
        (StateManager.stressStateAfter settings none (first :: l)) x).cpu_stressed = false) ∧
    ((∀ y ∈ first :: l, y.cpu_percent > settings.cpu_threshold) →
      x.cpu_percent > settings.cpu_threshold →
      x.now - first.now ≥ settings.stress_cpu_duration_seconds →
      (StateManager.is_system_stressed settings
        (StateManager.stressStateAfter settings none (first :: l)) x).cpu_stressed = true ∧
      (StateManager.is_system_stressed settings
        (StateManager.stressStateAfter settings none (first :: l)) x).stressed = true ∧
      StateManager.StressReason.cpu ∈
        (StateManager.is_system_stressed settings
          (StateManager.stressStateAfter settings none (first :: l)) x).reasons) ∧
    (x.ram_available_mb < 500 →
      (StateManager.is_system_stressed settings st x).stressed = true ∧
      StateManager.StressReason.ram ∈
        (StateManager.is_system_stressed settings st x).reasons) ∧
    (x.gpu_utilization = some g → g > settings.gpu_threshold →
      (StateManager.is_system_stressed settings st x).stressed = true ∧
      StateManager.StressReason.gpu ∈
        (StateManager.is_system_stressed settings st x).reasons) := by
  have hstate : (∀ y ∈ first :: l, y.cpu_percent > settings.cpu_threshold) →
      StateManager.stressStateAfter settings none (first :: l) = some first.now := by
    intro hall
    rw [StateManager.stressStateAfter,
      StateManager.stress_first_high settings first (hall first (List.mem_cons_self first l))]
    exact StateManager.stressStateAfter_high settings l first.now
      (fun z hz => hall z (List.mem_cons_of_mem _ hz))
  refine ⟨?_, ?_, ?_, ?_, ?_⟩
  · by_cases hx : x.cpu_percent > settings.cpu_threshold <;>
      simp [StateManager.is_system_stressed, hx]
  · intro hall hlt
    rw [hstate hall]
    by_cases hx : x.cpu_percent > settings.cpu_threshold
    · simp [StateManager.is_system_stressed, hx, not_le.mpr hlt]
    · simp [StateManager.is_system_stressed, hx]
  · intro hall hx hge
    rw [hstate hall]
    refine ⟨?_, ?_, ?_⟩ <;> simp [StateManager.is_system_stressed, hx, hge]
  · intro hr
    refine ⟨?_, ?_⟩ <;> simp [StateManager.is_system_stressed, hr]
  · intro hg hgt
    refine ⟨?_, ?_⟩ <;> simp [StateManager.is_system_stressed, hg, hgt]

/-- Witness for C3: threshold 85, duration 300 seconds, CPU at 90 from
time 0, probed again at time 301 — stress is reported, citing CPU. -/
theorem C3_witness :
    (StateManager.is_system_stressed {}
      (StateManager.stressStateAfter {} none [⟨0, 90, 1000, none⟩])
      ⟨301, 90, 1000, none⟩).stressed = true ∧
    StateManager.StressReason.cpu ∈
      (StateManager.is_system_stressed {}
        (StateManager.stressStateAfter {} none [⟨0, 90, 1000, none⟩])
        ⟨301, 90, 1000, none⟩).reasons := by
  have h := (C3_stress_debounce {} none ⟨0, 90, 1000, none⟩ ⟨301, 90, 1000, none⟩ [] 0).2.2.1
    (by decide) (by decide) (by decide)
  exact ⟨h.2.1, h.2.2⟩

namespace Re

/-- A character that is case-insensitively equal to a lower-case letter
is a word character. -/
theorem lcEq_word {c k : Char} (hk : isLowerAlpha k = true) (h : lcEq c k = true) :
    isWordChar c = true := by
  have h2 : lowerChar c = lowerChar k := by simpa [lcEq] using h
  have hk2 : 97 ≤ k.toNat ∧ k.toNat ≤ 122 := by simpa [isLowerAlpha] using hk
  have hku : isUpperAlpha k = false := by
    simp only [isUpperAlpha, Bool.and_eq_false_iff, decide_eq_false_iff_not]
    omega
  have hkl : lowerChar k = k := by simp [lowerChar, hku]
  by_cases hu : isUpperAlpha c = true
  · simp [isWordChar, hu]
  · have hu2 : isUpperAlpha c = false := by simpa using hu
    have hcl : lowerChar c = c := by simp [lowerChar, hu2]
    have hck : c = k := by rw [← hcl, h2, hkl]
    subst hck
    simp [isWordChar, hk]

/-- Case-insensitively equal lists have equal length. -/
theorem ciListEq_length {as : List Char} :
    ∀ {bs : List Char}, ciListEq as bs = true → as.length = bs.length := by
  induction as with
  | nil =>
      intro bs h
      cases bs with
      | nil => rfl
      | cons b bs => simp [ciListEq] at h
  | cons a as ih =>
      intro bs h
      cases bs with
      | nil => simp [ciListEq] at h
      | cons b bs =>
          simp only [ciListEq, Bool.and_eq_true] at h
          simp [ih h.2]

/-- A segment case-insensitively equal to a lower-case keyword consists
of word characters. -/
theorem ciListEq_word {mid : List Char} :
    ∀ {kw : List Char}, ciListEq mid kw = true →
      (∀ c ∈ kw, isLowerAlpha c = true) → ∀ c ∈ mid, isWordChar c = true := by
  induction mid with
  | nil => intro kw _ _ c hc; cases hc
  | cons a as ih =>
      intro kw h hk c hc
      cases kw with
      | nil => simp [ciListEq] at h
      | cons b bs =>
          simp only [ciListEq, Bool.and_eq_true] at h
          rcases List.mem_cons.mp hc with rfl | hc2
          · exact lcEq_word (hk b (List.mem_cons_self b bs)) h.1
          · exact ih h.2 (fun d hd => hk d (List.mem_cons_of_mem _ hd)) c hc2

/-- Characterization of stripCI: success means the input splits into a
case-insensitively equal segment followed by the returned rest. -/
theorem stripCI_iff {kw : List Char} :
    ∀ {rest rest2 : List Char},
      stripCI kw rest = some rest2 ↔
        ∃ mid, rest = mid ++ rest2 ∧ ciListEq mid kw = true := by
  induction kw with
  | nil =>
      intro rest rest2
      constructor
      · intro h
        have he : rest = rest2 := by simpa [stripCI] using h
        exact ⟨[], by simp [he], rfl⟩
      · rintro ⟨mid, hr, hci⟩
        have hm : mid = [] := by
          cases mid with
          | nil => rfl
          | cons a as => simp [ciListEq] at hci
        subst hm
        simp only [List.nil_append] at hr
        simp [stripCI, hr]
  | cons k ks ih =>
      intro rest rest2
      cases rest with
      | nil =>
          constructor
          · intro h; simp [stripCI] at h
          · rintro ⟨mid, hr, hci⟩
            have hm : mid = [] := (List.append_eq_nil.mp hr.symm).1
            subst hm
            simp [ciListEq] at hci
      | cons c cs =>
          by_cases hl : lcEq c k = true
          · constructor
            · intro h
              rw [show stripCI (k :: ks) (c :: cs) = stripCI ks cs by simp [stripCI, hl]] at h
              rcases ih.mp h with ⟨mid, hm, hc⟩
              exact ⟨c :: mid, by simp [hm], by simp [ciListEq, hl, hc]⟩
            · rintro ⟨mid, hm, hc⟩
              cases mid with
              | nil => simp [ciListEq] at hc
              | cons m ms =>
                  simp only [List.cons_append, List.cons.injEq] at hm
                  simp only [ciListEq, Bool.and_eq_true] at hc
                  rw [show stripCI (k :: ks) (c :: cs) = stripCI ks cs by simp [stripCI, hl]]
                  exact ih.mpr ⟨ms, hm.2, hc.2⟩
          · have hl2 : lcEq c k = false := by simpa using hl
            constructor
            · intro h
              rw [show stripCI (k :: ks) (c :: cs) = none by simp [stripCI, hl2]] at h
              cases h
            · rintro ⟨mid, hm, hc⟩
              cases mid with
              | nil => simp [ciListEq] at hc
              | cons m ms =>
                  simp only [List.cons_append, List.cons.injEq] at hm
                  simp only [ciListEq, Bool.and_eq_true] at hc
                  rw [hm.1] at hl2
                  rw [hc.1] at hl2
                  cases hl2

end Re

namespace Re

/-- newPrev after consuming nothing. -/
theorem newPrev_nil (prev : Option Char) : newPrev prev [] = prev := rfl

/-- newPrev steps through a cons. -/
theorem newPrev_cons (prev : Option Char) (c : Char) (l : List Char) :
    newPrev prev (c :: l) = newPrev (some c) l := by
  cases l with
  | nil => rfl
  | cons d ds =>
      cases hl : (d :: ds).getLast? with
      | none => exact absurd (List.getLast?_eq_none_iff.mp hl) (by simp)
      | some e => simp [newPrev, List.getLast?_cons_cons, hl]

/-- newPrev of a nonempty chunk is some character of the chunk. -/
theorem newPrev_of_ne_nil {mid : List Char} (prev : Option Char) (h : mid ≠ []) :
    ∃ c, newPrev prev mid = some c ∧ c ∈ mid := by
  cases hl : mid.getLast? with
  | none => exact absurd (List.getLast?_eq_none_iff.mp hl) h
  | some c => exact ⟨c, by simp [newPrev, hl], List.mem_of_getLast?_eq_some hl⟩

/-- A single word-boundary atom matches exactly when the position is a
boundary. -/
theorem matchAtoms_wb (prev : Option Char) (rest : List Char) :
    matchAtoms [Atom.wb] prev rest = isBoundary prev rest := by
  cases h : isBoundary prev rest <;> simp [matchAtoms, atomLens, h]

/-- Characterization of searchFrom: success at some split of the input,
with the previous-character state accumulated over the prefix. -/
theorem searchFrom_iff (p : List Atom) :
    ∀ (rest : List Char) (prev : Option Char),
      searchFrom p prev rest = true ↔
        ∃ pre suf, rest = pre ++ suf ∧ matchAtoms p (newPrev prev pre) suf = true := by
  intro rest
  induction rest with
  | nil =>
      intro prev
      constructor
      · intro h
        exact ⟨[], [], rfl, h⟩
      · rintro ⟨pre, suf, he, hm⟩
        have hp : pre = [] := (List.append_eq_nil.mp he.symm).1
        have hs : suf = [] := (List.append_eq_nil.mp he.symm).2
        subst hp
        subst hs
        exact hm
  | cons c rest ih =>
      intro prev
      simp only [searchFrom, Bool.or_eq_true]
      constructor
      · intro h
        rcases h with h1 | h2
        · exact ⟨[], c :: rest, rfl, h1⟩
        · rcases (ih (some c)).mp h2 with ⟨pre, suf, he, hm⟩
          refine ⟨c :: pre, suf, by simp [he], ?_⟩
          rw [newPrev_cons]
          exact hm
      · rintro ⟨pre, suf, he, hm⟩
        cases pre with
        | nil =>
            left
            simp only [List.nil_append] at he
            rw [he]
            exact hm
        | cons d ds =>
            right
            simp only [List.cons_append, List.cons.injEq] at he
            refine (ih (some c)).mpr ⟨ds, suf, he.2, ?_⟩
            rw [← he.1] at hm
            rw [newPrev_cons] at hm
            exact hm

end Re

namespace Re

/-- Characterization of the alternation-then-boundary tail of the
keyword patterns. -/
theorem matchAtoms_altsWb (kws : List (List Char)) (prev : Option Char) (rest : List Char) :
    matchAtoms [Atom.alts kws, Atom.wb] prev rest = true ↔
      ∃ kw ∈ kws, ∃ mid post, rest = mid ++ post ∧ ciListEq mid kw = true ∧
        isBoundary (newPrev prev mid) post = true := by
  have heq : matchAtoms [Atom.alts kws, Atom.wb] prev rest =
      (atomLens (Atom.alts kws) prev rest).any
        (fun k => matchAtoms [Atom.wb] (newPrev prev (rest.take k)) (rest.drop k)) := rfl
  rw [heq]
  rw [List.any_eq_true]
  constructor
  · rintro ⟨k, hk, hmatch⟩
    simp only [atomLens, List.mem_map, List.mem_filter] at hk
    rcases hk with ⟨kw, ⟨hkw, hsome⟩, hlen⟩
    rcases Option.isSome_iff_exists.mp hsome with ⟨rest2, hstrip⟩
    rcases stripCI_iff.mp hstrip with ⟨mid, hsplit, hci⟩
    have hml : mid.length = k := (ciListEq_length hci).trans hlen
    have hmm : matchAtoms [Atom.wb] (newPrev prev mid) rest2 = true := by
      rw [hsplit] at hmatch
      rwa [List.take_left' hml, List.drop_left' hml] at hmatch
    rw [matchAtoms_wb] at hmm
    exact ⟨kw, hkw, mid, rest2, hsplit, hci, hmm⟩
  · rintro ⟨kw, hkw, mid, post, hsplit, hci, hbd⟩
    have hml : mid.length = kw.length := ciListEq_length hci
    have hstrip : stripCI kw rest = some post := stripCI_iff.mpr ⟨mid, hsplit, hci⟩
    refine ⟨kw.length, ?_, ?_⟩
    · simp only [atomLens, List.mem_map, List.mem_filter]
      exact ⟨kw, ⟨hkw, by simp [hstrip]⟩, rfl⟩
    · rw [hsplit, List.take_left' hml, List.drop_left' hml, matchAtoms_wb]
      exact hbd

/-- Characterization of the full keyword pattern: boundary, one of the
keywords case-insensitively, boundary. -/
theorem matchAtoms_wordAlt (kws : List (List Char)) (prev : Option Char) (rest : List Char) :
    matchAtoms [Atom.wb, Atom.alts kws, Atom.wb] prev rest = true ↔
      (isBoundary prev rest = true ∧
        ∃ kw ∈ kws, ∃ mid post, rest = mid ++ post ∧ ciListEq mid kw = true ∧
          isBoundary (newPrev prev mid) post = true) := by
  have heq : matchAtoms [Atom.wb, Atom.alts kws, Atom.wb] prev rest =
      (atomLens Atom.wb prev rest).any
        (fun k => matchAtoms [Atom.alts kws, Atom.wb]
          (newPrev prev (rest.take k)) (rest.drop k)) := rfl
  cases hb : isBoundary prev rest with
  | false =>
      rw [heq]
      simp [atomLens, hb]
  | true =>
      rw [heq]
      simp only [atomLens, hb, if_true, List.any_cons, List.any_nil, Bool.or_false,
        List.take_zero, List.drop_zero, newPrev_nil]
      rw [matchAtoms_altsWb]
      simp

end Re

namespace Re

/-- The keyword pattern matches somewhere in the string exactly when one
of the keywords occurs as a whole word: a case-insensitively equal
segment with no word character adjacent on either side.  The keywords
must be nonempty lower-case words, as all keyword tables of the
repository are. -/
theorem reSearch_wordAlt (kws : List (List Char))
    (hne : ∀ kw ∈ kws, kw ≠ [])
    (hlo : ∀ kw ∈ kws, ∀ c ∈ kw, isLowerAlpha c = true)
    (s : String) :
    reSearch [Atom.wb, Atom.alts kws, Atom.wb] s = true ↔
      ∃ kw ∈ kws, ∃ pre mid post : List Char,
        s.data = pre ++ mid ++ post ∧ ciListEq mid kw = true ∧
        (∀ c, pre.getLast? = some c → isWordChar c = false) ∧
        (∀ c, post.head? = some c → isWordChar c = false) := by
  unfold reSearch
  rw [searchFrom_iff]
  constructor
  · rintro ⟨pre, suf, hsd, hm⟩
    rw [matchAtoms_wordAlt] at hm
    rcases hm with ⟨hb1, kw, hkw, mid, post, hsuf, hci, hb2⟩
    have hmw : ∀ c ∈ mid, isWordChar c = true := ciListEq_word hci (hlo kw hkw)
    have hmne : mid ≠ [] := by
      intro hnil
      apply hne kw hkw
      have hl := ciListEq_length hci
      rw [hnil] at hl
      exact List.length_eq_zero.mp hl.symm
    obtain ⟨m, ms, rfl⟩ : ∃ m ms, mid = m :: ms := by
      cases mid with
      | nil => exact absurd rfl hmne
      | cons m ms => exact ⟨m, ms, rfl⟩
    have hhead : headWord suf = true := by
      rw [hsuf]
      simpa [headWord] using hmw m (List.mem_cons_self m ms)
    have hpw : prevWord (newPrev none pre) = false := by
      cases hbool : prevWord (newPrev none pre) with
      | false => rfl
      | true => rw [isBoundary, hbool, hhead] at hb1; cases hb1
    refine ⟨kw, hkw, pre, m :: ms, post, ?_, hci, ?_, ?_⟩
    · rw [hsd, hsuf, ← List.append_assoc]
    · intro c hc
      have hnp : newPrev none pre = some c := by simp [newPrev, hc]
      rw [hnp] at hpw
      simpa [prevWord] using hpw
    · have hpost : headWord post = false := by
        rcases newPrev_of_ne_nil (newPrev none pre) (List.cons_ne_nil m ms) with ⟨e, he, hemem⟩
        rw [isBoundary, he] at hb2
        cases hh : headWord post with
        | false => rfl
        | true =>
            rw [hh] at hb2
            have hew : prevWord (some e) = true := by
              simpa [prevWord] using hmw e hemem
            rw [hew] at hb2
            cases hb2
      intro c hc
      cases post with
      | nil => cases hc
      | cons q qs =>
          have hqc : q = c := by simpa using hc
          subst hqc
          simpa [headWord] using hpost
  · rintro ⟨kw, hkw, pre, mid, post, hsd, hci, hpre, hpost⟩
    have hmw : ∀ c ∈ mid, isWordChar c = true := ciListEq_word hci (hlo kw hkw)
    have hmne : mid ≠ [] := by
      intro hnil
      apply hne kw hkw
      have hl := ciListEq_length hci
      rw [hnil] at hl
      exact List.length_eq_zero.mp hl.symm
    obtain ⟨m, ms, rfl⟩ : ∃ m ms, mid = m :: ms := by
      cases mid with
      | nil => exact absurd rfl hmne
      | cons m ms => exact ⟨m, ms, rfl⟩
    refine ⟨pre, (m :: ms) ++ post, by rw [hsd, List.append_assoc], ?_⟩
    rw [matchAtoms_wordAlt]
    have hpw : prevWord (newPrev none pre) = false := by
      cases hpl : pre.getLast? with
      | none => simp [newPrev, hpl, prevWord]
      | some c =>
          have : newPrev none pre = some c := by simp [newPrev, hpl]
          rw [this]
          simpa [prevWord] using hpre c hpl
    constructor
    · rw [isBoundary, hpw]
      simpa [headWord] using hmw m (List.mem_cons_self m ms)
    · refine ⟨kw, hkw, m :: ms, post, rfl, hci, ?_⟩
      rcases newPrev_of_ne_nil (newPrev none pre) (List.cons_ne_nil m ms) with ⟨e, he, hemem⟩
      have hh : headWord post = false := by
        cases post with
        | nil => rfl
        | cons q qs => simpa [headWord] using hpost q rfl
      rw [isBoundary, he, hh]
      simpa [prevWord] using hmw e hemem

end Re

/-- Bridge: a keyword-set pattern matches the command exactly when one of
the keywords occurs as a whole word. -/
theorem reSearch_keywords (KW : List String)
    (hne : ∀ kw ∈ KW.map String.data, kw ≠ [])
    (hlo : ∀ kw ∈ KW.map String.data, ∀ c ∈ kw, Re.isLowerAlpha c = true)
    (command : String) :
    Re.reSearch [Re.Atom.wb, Re.Atom.alts (KW.map String.data), Re.Atom.wb] command = true ↔
      ∃ kw ∈ KW, occursAsWholeWord kw command := by
  rw [Re.reSearch_wordAlt _ hne hlo]
  constructor
  · rintro ⟨kwL, hkwL, h⟩
    rcases List.mem_map.mp hkwL with ⟨kw, hkw, rfl⟩
    exact ⟨kw, hkw, h⟩
  · rintro ⟨kw, hkw, h⟩
    exact ⟨kw.data, List.mem_map_of_mem _ hkw, h⟩

/-- C4: classify_command returns dangerous exactly when a dangerous
keyword occurs as a whole word (even if a moderate keyword also
matches), moderate exactly when no dangerous keyword occurs but a
moderate one does, and safe exactly when neither occurs; in particular a
dangerous keyword appearing only inside a longer word never escalates.
The embedding is a pure function of the command string. -/
theorem C4_classify_whole_word (command : String) :
    (Permission.classify_command command = "dangerous" ↔
      ∃ kw ∈ Permission.DANGEROUS_KEYWORDS, occursAsWholeWord kw command) ∧
    (Permission.classify_command command = "moderate" ↔
      (¬(∃ kw ∈ Permission.DANGEROUS_KEYWORDS, occursAsWholeWord kw command) ∧
        ∃ kw ∈ Permission.MODERATE_KEYWORDS, occursAsWholeWord kw command)) ∧
    (Permission.classify_command command = "safe" ↔
      (¬(∃ kw ∈ Permission.DANGEROUS_KEYWORDS, occursAsWholeWord kw command) ∧
        ¬(∃ kw ∈ Permission.MODERATE_KEYWORDS, occursAsWholeWord kw command))) := by
  have hD : Re.reSearch Permission.dangerousPat command = true ↔
      ∃ kw ∈ Permission.DANGEROUS_KEYWORDS, occursAsWholeWord kw command :=
    reSearch_keywords Permission.DANGEROUS_KEYWORDS (by decide) (by decide) command
  have hM : Re.reSearch Permission.moderatePat command = true ↔
      ∃ kw ∈ Permission.MODERATE_KEYWORDS, occursAsWholeWord kw command :=
    reSearch_keywords Permission.MODERATE_KEYWORDS (by decide) (by decide) command
  unfold Permission.classify_command
  by_cases hd : Re.reSearch Permission.dangerousPat command = true
  · rw [if_pos hd]
    refine ⟨iff_of_true rfl (hD.mp hd), iff_of_false (by decide) ?_,
      iff_of_false (by decide) ?_⟩
    · rintro ⟨hnd, _⟩
      exact hnd (hD.mp hd)
    · rintro ⟨hnd, _⟩
      exact hnd (hD.mp hd)
  · rw [if_neg hd]
    have hndex : ¬∃ kw ∈ Permission.DANGEROUS_KEYWORDS, occursAsWholeWord kw command :=
      fun hex => hd (hD.mpr hex)
    by_cases hm : Re.reSearch Permission.moderatePat command = true
    · rw [if_pos hm]
      refine ⟨iff_of_false (by decide) hndex, iff_of_true rfl ⟨hndex, hM.mp hm⟩,
        iff_of_false (by decide) ?_⟩
      rintro ⟨_, hnm⟩
      exact hnm (hM.mp hm)
    · rw [if_neg hm]
      have hnmex : ¬∃ kw ∈ Permission.MODERATE_KEYWORDS, occursAsWholeWord kw command :=
        fun hex => hm (hM.mpr hex)
      exact ⟨iff_of_false (by decide) hndex,
        iff_of_false (by decide) (fun h => hnmex h.2),
        iff_of_true rfl ⟨hndex, hnmex⟩⟩

/-- Witness for C4: the command mentioning sudo as a whole word contains
a dangerous keyword as a whole word. -/
theorem C4_witness :
    ∃ kw ∈ Permission.DANGEROUS_KEYWORDS, occursAsWholeWord kw "sudo ls" :=
  (C4_classify_whole_word "sudo ls").1.mp (by decide)
